import Mathlib

/-!
Shallow embedding of `src/parser.py` (the `Parser` base class as instantiated
by `RisParser`, plus the `cite` renderer), and proofs about the claims of the
specification.

Lines are modelled as `List Char`.  Python dicts (which preserve insertion
order and identify keys by equality) are modelled as association lists with
unique keys, where `setdefault`/new-key assignment appends at the end and
assignment to an existing key updates in place.
-/

namespace Ris

/-- Python `str.isspace` characters (the set stripped by `str.strip()` and
matched by `\\s` in a unicode regex), by code point. -/
def pyIsSpace (c : Char) : Bool :=
  c.toNat = 0x20 || c.toNat = 0x09 || c.toNat = 0x0A || c.toNat = 0x0D ||
  c.toNat = 0x0B || c.toNat = 0x0C ||
  c.toNat = 0x1C || c.toNat = 0x1D || c.toNat = 0x1E || c.toNat = 0x1F ||
  c.toNat = 0x85 || c.toNat = 0xA0 || c.toNat = 0x1680 ||
  (0x2000 ≤ c.toNat && c.toNat ≤ 0x200A) ||
  c.toNat = 0x2028 || c.toNat = 0x2029 || c.toNat = 0x202F ||
  c.toNat = 0x205F || c.toNat = 0x3000

/-- Python `line.strip()` (both ends). -/
def pyStripL (l : List Char) : List Char :=
  ((l.dropWhile pyIsSpace).reverse.dropWhile pyIsSpace).reverse

/-- A character stripped by the `lstrip` call of `parselines`.  NOTE: the
Python source passes the string literal backslash-uefeff, which denotes the
TWO characters U+EFEF and U+0066 (a lowercase f), because the escape
consumes exactly four hex digits; it does not denote the byte-order mark
U+FEFF. -/
def isBomStripChar (c : Char) : Bool := c.toNat = 0xEFEF || c.toNat = 0x66

/-- Python `line.lstrip(...)` from `parselines`, applied to the first line. -/
def stripBom (l : List Char) : List Char := l.dropWhile isBomStripChar

/-- The regex class `[A-Z]`. -/
def isUpperAZ (c : Char) : Bool := 0x41 ≤ c.toNat && c.toNat ≤ 0x5A

/-- The digit part of the regex class `[A-Z0-9]`. -/
def isDigit09 (c : Char) : Bool := 0x30 ≤ c.toNat && c.toNat ≤ 0x39

/-- First alternative of `RisParser.PATTERN`, `^[A-Z][A-Z0-9]  - `. -/
def isTagContentLine (l : List Char) : Bool :=
  match l with
  | c0 :: c1 :: ' ' :: ' ' :: '-' :: ' ' :: _ =>
    isUpperAZ c0 && (isUpperAZ c1 || isDigit09 c1)
  | _ => false

/-- Second alternative of `RisParser.PATTERN`, `^ER  -\s*$`. -/
def isEndTagLine (l : List Char) : Bool :=
  match l with
  | 'E' :: 'R' :: ' ' :: ' ' :: '-' :: rest => rest.all pyIsSpace
  | _ => false

/-- `bool(self.pattern.match(line))` for `RisParser.PATTERN`. -/
def patternHit (l : List Char) : Bool := isTagContentLine l || isEndTagLine l

/-- `RisParser.START_TAG = "TY"`. -/
def START_TAG : List Char := ['T', 'Y']

/-- `Parser.END_TAG = "ER"`. -/
def END_TAG : List Char := ['E', 'R']

/-- `RisParser.content`: `line[6:].strip()`. -/
def risContent (l : List Char) : String := String.mk (pyStripL (l.drop 6))

/-- A field value of a record: either a scalar string or a list of strings. -/
inductive Value where
  | str (s : String)
  | list (xs : List String)
deriving DecidableEq

/-- A record: a Python dict from field name to value, as an insertion-ordered
association list with unique keys. -/
abbrev Record := List (String × Value)

/-- `data.get(name)` / `data[name]` lookup. -/
def recGet : Record → String → Option Value
  | [], _ => none
  | (k, v) :: t, k' => if k = k' then some v else recGet t k'

/-- `name in data`. -/
def recHasKey (d : Record) (k : String) : Bool := (recGet d k).isSome

/-- `data[name] = value`: update in place if present, else append. -/
def recSet : Record → String → Value → Record
  | [], k, v => [(k, v)]
  | (k0, v0) :: t, k, v =>
    if k0 = k then (k, v) :: t else (k0, v0) :: recSet t k v

/-- `data.setdefault(name, value)`. -/
def recSetdefault (d : Record) (k : String) (v : Value) : Record :=
  if recHasKey d k then d else d ++ [(k, v)]

/-- Python truthiness of a field value (`not data.get(name)` on a present key). -/
def valueFalsy : Value → Bool
  | .str s => s = ""
  | .list xs => xs.isEmpty

/-- The configuration held by a parser instance: `self.mapping`,
`self.list_tags`, `self.delimiter`, `self.enforce_list_tags`.
(`config.py` is external; these are caller-supplied.) -/
structure RisConfig where
  mapping : List (List Char × String)
  listTags : List (List Char)
  delimiter : List (List Char × Option String)
  enforceListTags : Bool

/-- Association-list lookup with `List Char` keys (Python dict lookup). -/
def lookupKey {α : Type} : List (List Char × α) → List Char → Option α
  | [], _ => none
  | (k, v) :: t, k' => if k = k' then some v else lookupKey t k'

/-- `self.delimiter.get(tag)` (flattening an explicit `None` entry, which
Python's `dict.get` makes indistinguishable from an absent key as far as
the `is not None` test goes). -/
def delimGet (cfg : RisConfig) (t : List Char) : Option String :=
  match lookupKey cfg.delimiter t with
  | none => none
  | some o => o

/-- The faults `_parse_tag`/`_add_tag` can raise, before the line index is
attached: `ParserError` (missing end-of-record), the bare `raise Exception`
of the delimiter check, `KeyError` from `self.mapping[tag]`, and
`AttributeError` from `.extend` on a non-list value. -/
inductive Fault where
  | missingEnd (line : List Char)
  | exn
  | keyError (tag : List Char)
  | attrError
deriving DecidableEq

/-- The exceptions escaping `parselines`, with the line index that
`ParserError` reports. -/
inductive ParseErr where
  | parserError (index : Nat) (line : List Char)
  | exn
  | keyError (tag : List Char)
  | attrError
deriving DecidableEq

def liftFault (i : Nat) : Fault → ParseErr
  | .missingEnd l => .parserError i l
  | .exn => .exn
  | .keyError t => .keyError t
  | .attrError => .attrError

/-- `_add_single_tag`. -/
def addSingleTag (cfg : RisConfig) (name : String) (value : String)
    (data : Record) : Record :=
  if cfg.enforceListTags || !(recHasKey data name) then
    recSetdefault data name (.str value)
  else data

/-- `_add_list_tag` (the value coming from `content` is a string, so the
`isinstance` coercion always wraps it into a one-element list). -/
def addListTag (name : String) (value : String) (data : Record) :
    Except Fault Record :=
  match recGet data name with
  | none => .ok (recSet data name (.list [value]))
  | some v =>
    if valueFalsy v then .ok (recSet data name (.list [value]))
    else
      match v with
      | .list xs => .ok (recSet data name (.list (xs ++ [value])))
      | .str _ => .error .attrError

/-- `_add_tag`. -/
def addTag (cfg : RisConfig) (tag : List Char) (line : List Char)
    (data : Record) : Except Fault Record :=
  match lookupKey cfg.mapping tag with
  | none => .error (.keyError tag)
  | some name =>
    let value := risContent line
    match delimGet cfg tag with
    | some _ => .error .exn
    | none =>
      if cfg.listTags.contains tag then addListTag name value data
      else .ok (addSingleTag cfg name value data)

/-- The state of one `parselines` call: `content` (output so far), `data`
(working record) and `self.inref`. -/
structure PState where
  content : List Record
  data : Record
  inref : Bool
deriving DecidableEq

def initState : PState := ⟨[], [], false⟩

/-- `_parse_tag`, returning (truthiness of the returned value, data, inref).
The return value is truthy exactly when the tag is `END_TAG` and the working
record is non-empty (the `return data` of the `ER` case). -/
def parseTagF (cfg : RisConfig) (line : List Char) (data : Record)
    (inref : Bool) : Except Fault (Bool × Record × Bool) :=
  let tag := line.take 2
  if tag = START_TAG then
    if inref then .error (.missingEnd line)
    else
      match addTag cfg tag line data with
      | .error e => .error e
      | .ok d => .ok (false, d, true)
  else if tag = END_TAG then .ok (!data.isEmpty, data, inref)
  else
    match lookupKey cfg.mapping tag with
    | none => .ok (false, data, inref)
    | some _ =>
      match addTag cfg tag line data with
      | .error e => .error e
      | .ok d => .ok (false, d, inref)

/-- Body of the `parselines` loop for one (already BOM-handled) line:
skip blank lines, skip lines missing the pattern, otherwise run
`_parse_tag` and on a truthy return append the record and reset. -/
def stepCore (cfg : RisConfig) (line : List Char) (st : PState) :
    Except Fault PState :=
  if (pyStripL line).isEmpty then .ok st
  else if patternHit line then
    match parseTagF cfg line st.data st.inref with
    | .error e => .error e
    | .ok (emit, d, r) =>
      if emit then .ok ⟨st.content ++ [d], [], false⟩
      else .ok ⟨st.content, d, r⟩
  else .ok st

/-- One iteration of the `parselines` loop at absolute line index `i`
(the first line gets `lstrip("f")` applied). -/
def parseStep (cfg : RisConfig) (i : Nat) (line : List Char) (st : PState) :
    Except ParseErr PState :=
  match stepCore cfg (if i = 0 then stripBom line else line) st with
  | .error f => .error (liftFault i f)
  | .ok st1 => .ok st1

/-- The `parselines` loop from line index `i`. -/
def runLines (cfg : RisConfig) : Nat → List (List Char) → PState →
    Except ParseErr PState
  | _, [], st => .ok st
  | i, l :: ls, st =>
    match parseStep cfg i l st with
    | .error e => .error e
    | .ok st1 => runLines cfg (i + 1) ls st1

/-- `Parser.parselines` on a fresh call. -/
def parselines (cfg : RisConfig) (lines : List (List Char)) :
    Except ParseErr (List Record) :=
  match runLines cfg 0 lines initState with
  | .error e => .error e
  | .ok st => .ok st.content

/-- The loop again, but keeping the state reached when an exception is
raised (all raises in `_parse_tag`/`_add_tag` happen before any mutation of
`data`/`self.inref` in that iteration). -/
def runLinesSt (cfg : RisConfig) : Nat → List (List Char) → PState →
    PState × Option ParseErr
  | _, [], st => (st, none)
  | i, l :: ls, st =>
    match parseStep cfg i l st with
    | .error e => (st, some e)
    | .ok st1 => runLinesSt cfg (i + 1) ls st1

/-- A `parselines` call on an instance whose `self.inref` attribute holds
`inref0` when the call starts (e.g. left over from an earlier call).  The
first statement `content, data, self.inref = [], \x7b\x7d, False` discards
`inref0`; the call returns the parsed records (or the escaping exception)
together with the value `self.inref` holds when the call ends. -/
def parseCall (cfg : RisConfig) (inref0 : Bool) (lines : List (List Char)) :
    Except ParseErr (List Record) × Bool :=
  let _ := inref0
  let r := runLinesSt cfg 0 lines initState
  match r.2 with
  | some e => (.error e, r.1.inref)
  | none => (.ok r.1.content, r.1.inref)

/-! ## The `cite` renderer -/

/-- Python `x.split(" ")`: split on every single space, keeping empties;
`"".split(" ") = [""]`. -/
def splitSpaceAux : List Char → List Char → List String
  | [], acc => [String.mk acc.reverse]
  | c :: t, acc =>
    if c = ' ' then String.mk acc.reverse :: splitSpaceAux t []
    else splitSpaceAux t (c :: acc)

def pySplitSpace (s : String) : List String := splitSpaceAux s.data []

/-- Iterating `record["authors"]` in `map`: over a list it yields the
elements, over a string it yields its characters as one-char strings. -/
def authorNames : Value → List String
  | .list xs => xs
  | .str s => s.data.map (fun c => String.mk [c])

/-- `s[:1]`. -/
def pyTake1 (s : String) : String := String.mk (s.data.take 1)

/-- `s[:-1]`. -/
def pyDropLast (s : String) : String := String.mk s.data.dropLast

/-- `sep(i)` from `cite`: `", &"` if `i == len(authors) - 2 and
len(authors) > 1` else `","` (the closure reads the author list before it
is rebound, so `n` is the number of authors). -/
def citeSep (n i : Nat) : String := if n > 1 && i + 2 = n then ", &" else ","

/-- One element of the author list comprehension, for an already reversed
name-part list `a` with `len(a) > 1`. -/
def citeAuthorPiece (n : Nat) (i : Nat) (a : List String) : String :=
  match a with
  | a0 :: a1 :: _ => a0 ++ ", " ++ pyTake1 a1 ++ "." ++ citeSep n i
  | _ => ""

/-- The `authors` string of `cite` for one record. -/
def citeAuthorsStr (names : List (List String)) : String :=
  let n := names.length
  pyDropLast (String.intercalate " "
    (((names.enum).filter (fun p => p.2.length > 1)).map
      (fun p => citeAuthorPiece n p.1 p.2)))

/-- `record.get(key, '')` rendered into an f-string (a list value renders
with Python's list repr; field strings here contain no quotes or escapes). -/
def getDefStr (r : Record) (k : String) : String :=
  match recGet r k with
  | none => ""
  | some (.str s) => s
  | some (.list xs) =>
    "[" ++ String.intercalate ", " (xs.map (fun x => "'" ++ x ++ "'")) ++ "]"

/-- The body of the `cite` loop for one record; `none` models the `KeyError`
of `record["authors"]` when the field is absent. -/
def citeRecord (r : Record) : Option String :=
  match recGet r "authors" with
  | none => none
  | some v =>
    let names := (authorNames v).map (fun x => (pySplitSpace x).reverse)
    let astr := citeAuthorsStr names
    some (astr ++ " (" ++ getDefStr r "year" ++ "). " ++
      getDefStr r "primary_title" ++ ". " ++ getDefStr r "journal_name" ++
      ". " ++ getDefStr r "doi")

/-- Insert into a lexicographically sorted list (Python `sorted`). -/
def insertSorted (s : String) : List String → List String
  | [] => [s]
  | t :: ts => if t < s then t :: insertSorted s ts else s :: t :: ts

def sortStrings (l : List String) : List String := l.foldr insertSorted []

/-- Collect the loop bodies in order, propagating a `KeyError`. -/
def citeAll : List Record → Option (List String)
  | [] => some []
  | r :: rs =>
    match citeRecord r, citeAll rs with
    | some s, some ss => some (s :: ss)
    | _, _ => none

/-- `cite(content, newline)`. -/
def cite (content : List Record) (newline : Bool) : Option String :=
  match citeAll content with
  | none => none
  | some recs =>
    let out := recs.map (fun rec => if newline then rec ++ "\n" else rec)
    some (String.intercalate "\n" (sortStrings out))

instance {ε α : Type} [DecidableEq ε] [DecidableEq α] :
    DecidableEq (Except ε α) := fun a b =>
  match a, b with
  | .ok x, .ok y =>
    match decEq x y with
    | isTrue h => isTrue (by rw [h])
    | isFalse h => isFalse (fun hh => h (Except.ok.inj hh))
  | .error x, .error y =>
    match decEq x y with
    | isTrue h => isTrue (by rw [h])
    | isFalse h => isFalse (fun hh => h (Except.error.inj hh))
  | .ok _, .error _ => isFalse (fun hh => Except.noConfusion hh)
  | .error _, .ok _ => isFalse (fun hh => Except.noConfusion hh)

/-! ## Character and line-classification lemmas -/

lemma upper_of_patternHit {l : List Char} (h : patternHit l = true) :
    ∃ c t, l = c :: t ∧ isUpperAZ c = true := by
  unfold patternHit at h
  rw [Bool.or_eq_true] at h
  rcases h with h1 | h1
  · unfold isTagContentLine at h1
    split at h1
    · rename_i c0 c1 rest
      rw [Bool.and_eq_true] at h1
      exact ⟨c0, _, rfl, h1.1⟩
    · exact absurd h1 (by simp)
  · unfold isEndTagLine at h1
    split at h1
    · exact ⟨'E', _, rfl, by decide⟩
    · exact absurd h1 (by simp)

lemma not_space_of_upper {c : Char} (h : isUpperAZ c = true) :
    pyIsSpace c = false := by
  simp only [isUpperAZ, Bool.and_eq_true, decide_eq_true_eq] at h
  simp only [pyIsSpace, Bool.or_eq_false_iff, Bool.and_eq_false_iff,
    decide_eq_false_iff_not]
  omega

lemma not_bomchar_of_upper {c : Char} (h : isUpperAZ c = true) :
    isBomStripChar c = false := by
  simp only [isUpperAZ, Bool.and_eq_true, decide_eq_true_eq] at h
  simp only [isBomStripChar, Bool.or_eq_false_iff, decide_eq_false_iff_not]
  omega

/-- A line matching the tag pattern starts with an uppercase letter, so the
first-line `lstrip` of `parselines` leaves it unchanged. -/
lemma stripBom_of_patternHit {l : List Char} (h : patternHit l = true) :
    stripBom l = l := by
  obtain ⟨c, t, rfl, hc⟩ := upper_of_patternHit h
  simp [stripBom, List.dropWhile_cons, not_bomchar_of_upper hc]

lemma dropWhile_append_singleton {p : Char → Bool} {c : Char}
    (hc : p c = false) (xs : List Char) :
    List.dropWhile p (xs ++ [c]) ≠ [] := by
  induction xs with
  | nil => simp [List.dropWhile_cons, hc]
  | cons x t ih =>
    rw [List.cons_append, List.dropWhile_cons]
    split
    · exact ih
    · simp

/-- A line matching the tag pattern is not blank: `line.strip()` is
non-empty. -/
lemma strip_of_patternHit {l : List Char} (h : patternHit l = true) :
    (pyStripL l).isEmpty = false := by
  obtain ⟨c, t, rfl, hc⟩ := upper_of_patternHit h
  have hsp := not_space_of_upper hc
  unfold pyStripL
  rw [List.dropWhile_cons, hsp]
  simp only [Bool.false_eq_true, if_false, List.reverse_cons]
  rw [List.isEmpty_eq_false_iff_exists_mem]
  have hne := dropWhile_append_singleton hsp t.reverse
  rcases List.exists_mem_of_ne_nil _ hne with ⟨x, hx⟩
  exact ⟨x, List.mem_reverse.mpr hx⟩

/-! ## Record (ordered dict) lemmas -/

lemma recGet_nil (k : String) : recGet [] k = none := rfl

lemma recGet_cons (k0 : String) (v0 : Value) (t : Record) (k : String) :
    recGet ((k0, v0) :: t) k = if k0 = k then some v0 else recGet t k := rfl

lemma recSet_nil (k : String) (v : Value) : recSet [] k v = [(k, v)] := rfl

lemma recSet_cons (k0 : String) (v0 : Value) (t : Record) (k : String)
    (v : Value) :
    recSet ((k0, v0) :: t) k v =
      if k0 = k then (k, v) :: t else (k0, v0) :: recSet t k v := rfl

lemma recGet_append_self {d : Record} {k : String} (v : Value)
    (h : recGet d k = none) : recGet (d ++ [(k, v)]) k = some v := by
  induction d with
  | nil => simp [recGet_nil, recGet_cons]
  | cons p t ih =>
    obtain ⟨k0, v0⟩ := p
    rw [recGet_cons] at h
    split at h
    · exact absurd h (by simp)
    · rename_i hk
      rw [List.cons_append, recGet_cons, if_neg hk]
      exact ih h

lemma recSet_absent {d : Record} {k : String} (v : Value)
    (h : recGet d k = none) : recSet d k v = d ++ [(k, v)] := by
  induction d with
  | nil => simp [recSet_nil]
  | cons p t ih =>
    obtain ⟨k0, v0⟩ := p
    rw [recGet_cons] at h
    split at h
    · exact absurd h (by simp)
    · rename_i hk
      rw [recSet_cons, if_neg hk, List.cons_append, ih h]

lemma recSet_append_update {d : Record} {k : String} (v w : Value)
    (h : recGet d k = none) : recSet (d ++ [(k, v)]) k w = d ++ [(k, w)] := by
  induction d with
  | nil => simp [recSet_cons]
  | cons p t ih =>
    obtain ⟨k0, v0⟩ := p
    rw [recGet_cons] at h
    split at h
    · exact absurd h (by simp)
    · rename_i hk
      rw [List.cons_append, List.cons_append, recSet_cons, if_neg hk, ih h]

lemma recHasKey_append_self (d : Record) (k : String) (v : Value) :
    recHasKey (d ++ [(k, v)]) k = true := by
  induction d with
  | nil => simp [recHasKey, recGet_nil, recGet_cons]
  | cons p t ih =>
    obtain ⟨k0, v0⟩ := p
    rw [List.cons_append]
    unfold recHasKey
    rw [recGet_cons]
    split
    · simp
    · exact ih

lemma recHasKey_of_absent {d : Record} {k : String}
    (h : recGet d k = none) : recHasKey d k = false := by
  unfold recHasKey
  rw [h]
  rfl

lemma recSet_ne_nil (d : Record) (k : String) (v : Value) :
    recSet d k v ≠ [] := by
  cases d with
  | nil => simp [recSet_nil]
  | cons p t =>
    obtain ⟨k0, v0⟩ := p
    rw [recSet_cons]
    split <;> simp

lemma ne_nil_of_recHasKey {d : Record} {k : String}
    (h : recHasKey d k = true) : d ≠ [] := by
  cases d with
  | nil => exact absurd h (by simp [recHasKey, recGet_nil])
  | cons p t => simp

/-! ## Field-add lemmas -/

/-- Every successfully added field leaves the working record non-empty. -/
lemma addTag_ok_ne_nil {cfg : RisConfig} {t l : List Char} {d d1 : Record}
    (h : addTag cfg t l d = .ok d1) : d1 ≠ [] := by
  unfold addTag at h
  split at h
  · exact absurd h (by simp)
  · rename_i name hname
    split at h
    · exact absurd h (by simp)
    · split at h
      · unfold addListTag at h
        split at h
        · rw [Except.ok.injEq] at h
          exact h ▸ recSet_ne_nil _ _ _
        · split at h
          · rw [Except.ok.injEq] at h
            exact h ▸ recSet_ne_nil _ _ _
          · split at h
            · rw [Except.ok.injEq] at h
              exact h ▸ recSet_ne_nil _ _ _
            · exact absurd h (by simp)
      · rw [Except.ok.injEq] at h
        subst h
        unfold addSingleTag
        split
        · unfold recSetdefault
          split
          · rename_i hk
            exact ne_nil_of_recHasKey hk
          · simp
        · rename_i hcond
          have hk : recHasKey d name = true := by
            by_contra hk
            rw [Bool.not_eq_true] at hk
            exact hcond (by rw [hk]; simp)
          exact ne_nil_of_recHasKey hk

/-! ## Parse-loop equation lemmas -/

lemma isEmpty_false_of_ne_nil {α : Type} {l : List α} (h : l ≠ []) :
    l.isEmpty = false := by
  cases l with
  | nil => exact absurd rfl h
  | cons a t => rfl

lemma runLines_nil (cfg : RisConfig) (i : Nat) (st : PState) :
    runLines cfg i [] st = .ok st := rfl

lemma runLines_cons (cfg : RisConfig) (i : Nat) (l : List Char)
    (ls : List (List Char)) (st : PState) :
    runLines cfg i (l :: ls) st =
      match parseStep cfg i l st with
      | .error e => .error e
      | .ok st1 => runLines cfg (i + 1) ls st1 := rfl

lemma parseStep_of_ne_zero (cfg : RisConfig) {i : Nat} (hi : i ≠ 0)
    (l : List Char) (st : PState) :
    parseStep cfg i l st =
      match stepCore cfg l st with
      | .error f => .error (liftFault i f)
      | .ok st1 => .ok st1 := by
  unfold parseStep
  rw [if_neg hi]

lemma parseStep_of_stripBom (cfg : RisConfig) (i : Nat) {l : List Char}
    (hl : stripBom l = l) (st : PState) :
    parseStep cfg i l st =
      match stepCore cfg l st with
      | .error f => .error (liftFault i f)
      | .ok st1 => .ok st1 := by
  unfold parseStep
  by_cases hi : i = 0
  · rw [if_pos hi, hl]
  · rw [if_neg hi]

lemma parseStep_eval {cfg : RisConfig} {i : Nat} {l : List Char}
    (hok : i ≠ 0 ∨ stripBom l = l) (st : PState) :
    parseStep cfg i l st =
      match stepCore cfg l st with
      | .error f => .error (liftFault i f)
      | .ok st1 => .ok st1 := by
  rcases hok with hi | hl
  · exact parseStep_of_ne_zero cfg hi l st
  · exact parseStep_of_stripBom cfg i hl st

lemma runLines_cons_of_stepCore_ok {cfg : RisConfig} {i : Nat}
    {l : List Char} {st st2 : PState} (hstep : stepCore cfg l st = .ok st2)
    (hok : i ≠ 0 ∨ stripBom l = l) (ls : List (List Char)) :
    runLines cfg i (l :: ls) st = runLines cfg (i + 1) ls st2 := by
  have hps : parseStep cfg i l st = .ok st2 := by
    rw [parseStep_eval hok, hstep]
  rw [runLines_cons, hps]

lemma runLines_cons_of_stepCore_err {cfg : RisConfig} {i : Nat}
    {l : List Char} {st : PState} {f : Fault}
    (hstep : stepCore cfg l st = .error f)
    (hok : i ≠ 0 ∨ stripBom l = l) (ls : List (List Char)) :
    runLines cfg i (l :: ls) st = .error (liftFault i f) := by
  have hps : parseStep cfg i l st = .error (liftFault i f) := by
    rw [parseStep_eval hok, hstep]
  rw [runLines_cons, hps]

lemma runLines_append (cfg : RisConfig) (ls1 ls2 : List (List Char)) :
    ∀ (i : Nat) (st : PState),
      runLines cfg i (ls1 ++ ls2) st =
        match runLines cfg i ls1 st with
        | .error e => .error e
        | .ok st1 => runLines cfg (i + ls1.length) ls2 st1 := by
  induction ls1 with
  | nil =>
    intro i st
    simp [runLines_nil]
  | cons l t ih =>
    intro i st
    rw [List.cons_append, runLines_cons, runLines_cons]
    cases parseStep cfg i l st with
    | error e => rfl
    | ok st1 =>
      dsimp only
      rw [ih (i + 1) st1]
      have hlen : i + 1 + t.length = i + (l :: t).length := by
        rw [List.length_cons]
        omega
      rw [hlen]

/-- `Except.toOption`: the result forgetting which exception was raised. -/
def exceptToOption {ε α : Type} : Except ε α → Option α
  | .ok a => some a
  | .error _ => none

/-- The successful results of the loop do not depend on the base line index,
as long as no line sits at index 0 (the index is only used in the BOM strip
and in error messages). -/
lemma runLines_toOption_shift (cfg : RisConfig) (ls : List (List Char)) :
    ∀ {i j : Nat}, i ≠ 0 → j ≠ 0 → ∀ (st : PState),
      exceptToOption (runLines cfg i ls st) =
        exceptToOption (runLines cfg j ls st) := by
  induction ls with
  | nil => intro i j hi hj st; rfl
  | cons l t ih =>
    intro i j hi hj st
    rw [runLines_cons, runLines_cons, parseStep_of_ne_zero cfg hi,
      parseStep_of_ne_zero cfg hj]
    cases stepCore cfg l st with
    | error f => rfl
    | ok st1 => exact ih (Nat.succ_ne_zero i) (Nat.succ_ne_zero j) st1

lemma runLines_ok_shift (cfg : RisConfig) {ls : List (List Char)}
    {i j : Nat} (hi : i ≠ 0) (hj : j ≠ 0) {st st1 : PState}
    (h : runLines cfg i ls st = .ok st1) :
    runLines cfg j ls st = .ok st1 := by
  have hsh := runLines_toOption_shift cfg ls hi hj st
  rw [h] at hsh
  cases hj2 : runLines cfg j ls st with
  | error e =>
    rw [hj2] at hsh
    exact absurd hsh (by simp [exceptToOption])
  | ok st2 =>
    rw [hj2] at hsh
    simp only [exceptToOption, Option.some.injEq] at hsh
    rw [hsh]

/-! ## The output list only grows by appending -/

lemma stepCore_content (cfg : RisConfig) (l : List Char) (c : List Record)
    (d : Record) (r : Bool) :
    stepCore cfg l ⟨c, d, r⟩ =
      (stepCore cfg l ⟨[], d, r⟩).map
        (fun st => ⟨c ++ st.content, st.data, st.inref⟩) := by
  simp only [stepCore]
  split
  · simp [Except.map]
  · split
    · cases h : parseTagF cfg l d r with
      | error e => simp [Except.map]
      | ok x =>
        obtain ⟨emit, d1, r1⟩ := x
        cases emit <;> simp [Except.map]
    · simp [Except.map]

lemma parseStep_content (cfg : RisConfig) (i : Nat) (l : List Char)
    (c : List Record) (d : Record) (r : Bool) :
    parseStep cfg i l ⟨c, d, r⟩ =
      (parseStep cfg i l ⟨[], d, r⟩).map
        (fun st => ⟨c ++ st.content, st.data, st.inref⟩) := by
  unfold parseStep
  rw [stepCore_content]
  cases stepCore cfg (if i = 0 then stripBom l else l) ⟨[], d, r⟩ with
  | error f => simp [Except.map]
  | ok st1 => simp [Except.map]

lemma runLines_content (cfg : RisConfig) (ls : List (List Char)) :
    ∀ (i : Nat) (c : List Record) (d : Record) (r : Bool),
      runLines cfg i ls ⟨c, d, r⟩ =
        (runLines cfg i ls ⟨[], d, r⟩).map
          (fun st => ⟨c ++ st.content, st.data, st.inref⟩) := by
  induction ls with
  | nil =>
    intro i c d r
    simp [runLines_nil, Except.map]
  | cons l t ih =>
    intro i c d r
    rw [runLines_cons, runLines_cons, parseStep_content]
    cases h : parseStep cfg i l ⟨[], d, r⟩ with
    | error e => simp [Except.map]
    | ok st1 =>
      simp only [Except.map]
      obtain ⟨c1, d1, r1⟩ := st1
      rw [ih (i + 1) (c ++ c1) d1 r1, ih (i + 1) c1 d1 r1]
      cases runLines cfg (i + 1) t ⟨[], d1, r1⟩ with
      | error e => rfl
      | ok st2 => simp [Except.map, List.append_assoc]

lemma runLines_content_ok (cfg : RisConfig) {ls : List (List Char)}
    {i : Nat} {d : Record} {r : Bool} {cs : List Record} {d1 : Record}
    {r1 : Bool} (c : List Record)
    (h : runLines cfg i ls ⟨[], d, r⟩ = .ok ⟨cs, d1, r1⟩) :
    runLines cfg i ls ⟨c, d, r⟩ = .ok ⟨c ++ cs, d1, r1⟩ := by
  rw [runLines_content, h]
  rfl

/-! ## Evaluation lemmas for one line -/

lemma stepCore_blank {cfg : RisConfig} {l : List Char} {st : PState}
    (h : (pyStripL l).isEmpty = true) : stepCore cfg l st = .ok st := by
  unfold stepCore
  rw [if_pos h]

lemma stepCore_nohit {cfg : RisConfig} {l : List Char} {st : PState}
    (hb : (pyStripL l).isEmpty = false) (hh : patternHit l = false) :
    stepCore cfg l st = .ok st := by
  unfold stepCore
  rw [if_neg (by rw [hb]; exact Bool.false_ne_true),
    if_neg (by rw [hh]; exact Bool.false_ne_true)]

lemma stepCore_hit {cfg : RisConfig} {l : List Char} (hh : patternHit l = true)
    (st : PState) :
    stepCore cfg l st =
      match parseTagF cfg l st.data st.inref with
      | .error e => .error e
      | .ok (emit, d, r) =>
        if emit then .ok ⟨st.content ++ [d], [], false⟩
        else .ok ⟨st.content, d, r⟩ := by
  unfold stepCore
  rw [if_neg (by rw [strip_of_patternHit hh]; exact Bool.false_ne_true),
    if_pos hh]

lemma parseTagF_start (cfg : RisConfig) {l : List Char}
    (h : l.take 2 = START_TAG) (data : Record) (inref : Bool) :
    parseTagF cfg l data inref =
      if inref then .error (.missingEnd l)
      else
        match addTag cfg START_TAG l data with
        | .error e => .error e
        | .ok d => .ok (false, d, true) := by
  simp only [parseTagF]
  rw [h, if_pos rfl]

lemma parseTagF_end (cfg : RisConfig) {l : List Char}
    (h : l.take 2 = END_TAG) (data : Record) (inref : Bool) :
    parseTagF cfg l data inref = .ok (!data.isEmpty, data, inref) := by
  simp only [parseTagF]
  rw [h, if_neg (by decide : ¬(END_TAG = START_TAG)), if_pos rfl]

lemma parseTagF_other (cfg : RisConfig) {l : List Char}
    (h1 : l.take 2 ≠ START_TAG) (h2 : l.take 2 ≠ END_TAG)
    (data : Record) (inref : Bool) :
    parseTagF cfg l data inref =
      match lookupKey cfg.mapping (l.take 2) with
      | none => .ok (false, data, inref)
      | some _ =>
        match addTag cfg (l.take 2) l data with
        | .error e => .error e
        | .ok d => .ok (false, d, inref) := by
  simp only [parseTagF]
  rw [if_neg h1, if_neg h2]

lemma stepCore_start (cfg : RisConfig) {l : List Char} {st : PState}
    (hhit : patternHit l = true) (hTag : l.take 2 = START_TAG)
    (hin : st.inref = false) :
    stepCore cfg l st =
      match addTag cfg START_TAG l st.data with
      | .error e => .error e
      | .ok d => .ok ⟨st.content, d, true⟩ := by
  rw [stepCore_hit hhit, parseTagF_start cfg hTag]
  simp only [hin, Bool.false_eq_true, if_false]
  cases addTag cfg START_TAG l st.data with
  | error e => rfl
  | ok d => rfl

lemma stepCore_start_open (cfg : RisConfig) {l : List Char} {st : PState}
    (hhit : patternHit l = true) (hTag : l.take 2 = START_TAG)
    (hin : st.inref = true) :
    stepCore cfg l st = .error (.missingEnd l) := by
  rw [stepCore_hit hhit, parseTagF_start cfg hTag]
  simp [hin]

lemma stepCore_end (cfg : RisConfig) {l : List Char} {st : PState}
    (hhit : patternHit l = true) (hTag : l.take 2 = END_TAG) :
    stepCore cfg l st =
      if st.data.isEmpty then .ok st
      else .ok ⟨st.content ++ [st.data], [], false⟩ := by
  rw [stepCore_hit hhit, parseTagF_end cfg hTag]
  cases hd : st.data.isEmpty with
  | false => simp [hd]
  | true => simp [hd]

lemma stepCore_other (cfg : RisConfig) {l : List Char} {st : PState}
    (hhit : patternHit l = true) (h1 : l.take 2 ≠ START_TAG)
    (h2 : l.take 2 ≠ END_TAG) :
    stepCore cfg l st =
      match lookupKey cfg.mapping (l.take 2) with
      | none => .ok st
      | some _ =>
        match addTag cfg (l.take 2) l st.data with
        | .error e => .error e
        | .ok d => .ok ⟨st.content, d, st.inref⟩ := by
  rw [stepCore_hit hhit, parseTagF_other cfg h1 h2]
  cases lookupKey cfg.mapping (l.take 2) with
  | none => rfl
  | some name =>
    cases addTag cfg (l.take 2) l st.data with
    | error e => rfl
    | ok d => rfl

/-! ## Well-formed record blocks -/

/-- One well-formed record of the input: a START_TAG line, content lines,
and an END_TAG line. -/
structure Block where
  startLine : List Char
  body : List (List Char)
  endLine : List Char

def Block.lines (b : Block) : List (List Char) :=
  b.startLine :: (b.body ++ [b.endLine])

/-- The concatenation of the blocks' lines, in order. -/
def linesOfBlocks : List Block → List (List Char)
  | [] => []
  | b :: bs => b.lines ++ linesOfBlocks bs

/-- A tag-bearing line whose tag is the start tag `"TY"`. -/
def isStartLine (l : List Char) : Bool :=
  patternHit l && (l.take 2 = START_TAG)

/-- A tag-bearing line whose tag is the end tag `"ER"`. -/
def isEndLine (l : List Char) : Bool :=
  patternHit l && (l.take 2 = END_TAG)

def exceptOk {ε α : Type} : Except ε α → Bool
  | .ok _ => true
  | .error _ => false

/-- Running the parser loop over one block's lines from a fresh state
(at base index 1; the result is index-independent for non-zero bases). -/
def blockRun (cfg : RisConfig) (b : Block) : Except ParseErr PState :=
  runLines cfg 1 b.lines initState

/-- The record a well-formed block parses to. -/
def blockRecord (cfg : RisConfig) (b : Block) : Record :=
  match blockRun cfg b with
  | .ok st =>
    match st.content with
    | [r] => r
    | _ => []
  | .error _ => []

/-- A well-formed record block: it opens with a START_TAG line, closes with
an END_TAG line, its body has no START_TAG or END_TAG lines (no nesting),
and processing it raises no fault (in particular its start tag is present
in the tag mapping and no encountered tag has a non-null delimiter). -/
def BlockOk (cfg : RisConfig) (b : Block) : Prop :=
  isStartLine b.startLine = true ∧ isEndLine b.endLine = true ∧
  (∀ l ∈ b.body, patternHit l = true →
    l.take 2 ≠ START_TAG ∧ l.take 2 ≠ END_TAG) ∧
  exceptOk (blockRun cfg b) = true

instance (cfg : RisConfig) (b : Block) : Decidable (BlockOk cfg b) := by
  unfold BlockOk
  infer_instance

lemma isStartLine_elim {l : List Char} (h : isStartLine l = true) :
    patternHit l = true ∧ l.take 2 = START_TAG := by
  simpa [isStartLine, Bool.and_eq_true] using h

lemma isEndLine_elim {l : List Char} (h : isEndLine l = true) :
    patternHit l = true ∧ l.take 2 = END_TAG := by
  simpa [isEndLine, Bool.and_eq_true] using h

/-- Body lines of a block (no START_TAG/END_TAG lines) never emit a record,
never clear the `inref` flag and keep the working record non-empty. -/
lemma bodyRun_inv (cfg : RisConfig) (body : List (List Char)) :
    ∀ (i : Nat) (d : Record) (st1 : PState), i ≠ 0 → d ≠ [] →
      (∀ l ∈ body, patternHit l = true →
        l.take 2 ≠ START_TAG ∧ l.take 2 ≠ END_TAG) →
      runLines cfg i body ⟨[], d, true⟩ = .ok st1 →
      st1.content = [] ∧ st1.inref = true ∧ st1.data ≠ [] := by
  induction body with
  | nil =>
    intro i d st1 _ hd _ h
    rw [runLines_nil, Except.ok.injEq] at h
    subst h
    exact ⟨rfl, rfl, hd⟩
  | cons l t ih =>
    intro i d st1 hi hd hb h
    have hbrest : ∀ l2 ∈ t, patternHit l2 = true →
        l2.take 2 ≠ START_TAG ∧ l2.take 2 ≠ END_TAG :=
      fun l2 hl2 => hb l2 (List.mem_cons_of_mem l hl2)
    by_cases hblank : (pyStripL l).isEmpty = true
    · rw [runLines_cons_of_stepCore_ok (stepCore_blank hblank) (Or.inl hi)] at h
      exact ih (i + 1) d st1 (Nat.succ_ne_zero i) hd hbrest h
    · rw [Bool.not_eq_true] at hblank
      by_cases hhit : patternHit l = true
      · obtain ⟨hnTY, hnER⟩ := hb l (List.mem_cons_self l t) hhit
        cases hlk : lookupKey cfg.mapping (l.take 2) with
        | none =>
          have hsc : stepCore cfg l ⟨[], d, true⟩ = .ok ⟨[], d, true⟩ := by
            rw [stepCore_other cfg hhit hnTY hnER, hlk]
          rw [runLines_cons_of_stepCore_ok hsc (Or.inl hi)] at h
          exact ih (i + 1) d st1 (Nat.succ_ne_zero i) hd hbrest h
        | some name =>
          cases hadd : addTag cfg (l.take 2) l d with
          | error f =>
            have hsc : stepCore cfg l ⟨[], d, true⟩ = .error f := by
              rw [stepCore_other cfg hhit hnTY hnER, hlk]
              dsimp only
              rw [hadd]
            rw [runLines_cons_of_stepCore_err hsc (Or.inl hi)] at h
            exact absurd h (by simp)
          | ok d1 =>
            have hsc : stepCore cfg l ⟨[], d, true⟩ = .ok ⟨[], d1, true⟩ := by
              rw [stepCore_other cfg hhit hnTY hnER, hlk]
              dsimp only
              rw [hadd]
            rw [runLines_cons_of_stepCore_ok hsc (Or.inl hi)] at h
            exact ih (i + 1) d1 st1 (Nat.succ_ne_zero i)
              (addTag_ok_ne_nil hadd) hbrest h
      · rw [Bool.not_eq_true] at hhit
        rw [runLines_cons_of_stepCore_ok (stepCore_nohit hblank hhit)
          (Or.inl hi)] at h
        exact ih (i + 1) d st1 (Nat.succ_ne_zero i) hd hbrest h

/-- A well-formed block parses, from a fresh state, to exactly one record
(emitted at its END_TAG line), with the working record empty and the
`inref` flag cleared afterwards. -/
lemma blockRun_shape {cfg : RisConfig} {b : Block} (h : BlockOk cfg b) :
    blockRun cfg b = .ok ⟨[blockRecord cfg b], [], false⟩ := by
  obtain ⟨hstart, hend, hbody, hok⟩ := h
  obtain ⟨hsHit, hsTag⟩ := isStartLine_elim hstart
  obtain ⟨heHit, heTag⟩ := isEndLine_elim hend
  cases hadd : addTag cfg START_TAG b.startLine [] with
  | error f =>
    have hsc : stepCore cfg b.startLine initState = .error f := by
      rw [stepCore_start cfg hsHit hsTag rfl]
      dsimp only [initState]
      rw [hadd]
    have hberr : blockRun cfg b = .error (liftFault 1 f) := by
      unfold blockRun Block.lines
      rw [runLines_cons_of_stepCore_err hsc (Or.inl Nat.one_ne_zero)]
    rw [hberr] at hok
    exact absurd hok (by simp [exceptOk])
  | ok d0 =>
    have hd0 : d0 ≠ [] := addTag_ok_ne_nil hadd
    have hsc : stepCore cfg b.startLine initState = .ok ⟨[], d0, true⟩ := by
      rw [stepCore_start cfg hsHit hsTag rfl]
      dsimp only [initState]
      rw [hadd]
    have hrun1 : blockRun cfg b =
        runLines cfg 2 (b.body ++ [b.endLine]) ⟨[], d0, true⟩ := by
      unfold blockRun Block.lines
      rw [runLines_cons_of_stepCore_ok hsc (Or.inl Nat.one_ne_zero)]
    rw [runLines_append] at hrun1
    cases hrb : runLines cfg 2 b.body ⟨[], d0, true⟩ with
    | error e =>
      rw [hrb] at hrun1
      dsimp only at hrun1
      rw [hrun1] at hok
      exact absurd hok (by simp [exceptOk])
    | ok stB =>
      rw [hrb] at hrun1
      dsimp only at hrun1
      obtain ⟨hc, hr, hdne⟩ :=
        bodyRun_inv cfg b.body 2 d0 stB (by decide) hd0 hbody hrb
      have hscE : stepCore cfg b.endLine stB =
          .ok ⟨stB.content ++ [stB.data], [], false⟩ := by
        rw [stepCore_end cfg heHit heTag]
        simp only [isEmpty_false_of_ne_nil hdne, Bool.false_eq_true, if_false]
      have hrun2 : blockRun cfg b = .ok ⟨[stB.data], [], false⟩ := by
        rw [hrun1, runLines_cons_of_stepCore_ok hscE
          (Or.inl (by omega : 2 + b.body.length ≠ 0)) [], runLines_nil, hc]
        rw [List.nil_append]
      rw [hrun2]
      unfold blockRecord
      rw [hrun2]

lemma linesOfBlocks_nil : linesOfBlocks [] = [] := rfl

lemma linesOfBlocks_cons (b : Block) (bs : List Block) :
    linesOfBlocks (b :: bs) = b.lines ++ linesOfBlocks bs := rfl

/-- If no line sits at index 0, concatenated well-formed blocks parse to
their records, in block order, appended to whatever was already emitted. -/
lemma runBlocks (cfg : RisConfig) (blocks : List Block)
    (h : ∀ b ∈ blocks, BlockOk cfg b) :
    ∀ (i : Nat) (c : List Record), i ≠ 0 →
      runLines cfg i (linesOfBlocks blocks) ⟨c, [], false⟩ =
        .ok ⟨c ++ blocks.map (blockRecord cfg), [], false⟩ := by
  induction blocks with
  | nil =>
    intro i c hi
    simp [linesOfBlocks_nil, runLines_nil]
  | cons b bs ih =>
    intro i c hi
    have hb := h b (List.mem_cons_self b bs)
    have hbs : ∀ b2 ∈ bs, BlockOk cfg b2 :=
      fun b2 hb2 => h b2 (List.mem_cons_of_mem b hb2)
    have hshape := blockRun_shape hb
    have hshift : runLines cfg i b.lines initState =
        .ok ⟨[blockRecord cfg b], [], false⟩ :=
      runLines_ok_shift cfg Nat.one_ne_zero hi hshape
    have hcontent : runLines cfg i b.lines ⟨c, [], false⟩ =
        .ok ⟨c ++ [blockRecord cfg b], [], false⟩ :=
      runLines_content_ok cfg c hshift
    rw [linesOfBlocks_cons, runLines_append, hcontent]
    dsimp only
    rw [ih hbs (i + b.lines.length) (c ++ [blockRecord cfg b]) (by omega)]
    simp [List.append_assoc]

/-- Transfer a successful loop run from base index 1 to base index 0, when
the first line is unaffected by the first-line strip. -/
lemma runLines_zero_of_one (cfg : RisConfig) {l : List Char}
    (hl : stripBom l = l) {ls : List (List Char)} {st st1 : PState}
    (h : runLines cfg 1 (l :: ls) st = .ok st1) :
    runLines cfg 0 (l :: ls) st = .ok st1 := by
  rw [runLines_cons] at h ⊢
  rw [parseStep_of_ne_zero cfg Nat.one_ne_zero] at h
  rw [parseStep_of_stripBom cfg 0 hl]
  cases hs : stepCore cfg l st with
  | error f =>
    rw [hs] at h
    exact absurd h (by simp)
  | ok st2 =>
    rw [hs] at h
    dsimp only at h ⊢
    exact runLines_ok_shift cfg (by decide) Nat.one_ne_zero h

/-- C1: an input made of N well-formed start/end record blocks with no
nesting (each opened by one START_TAG line whose tag is in the mapping,
closed by one END_TAG line, no fault raised) parses to exactly N records,
in the order the blocks' END_TAG lines appear. -/
theorem claim1_wellformed_blocks (cfg : RisConfig) (blocks : List Block)
    (h : ∀ b ∈ blocks, BlockOk cfg b) :
    parselines cfg (linesOfBlocks blocks) =
      .ok (blocks.map (blockRecord cfg)) ∧
    (blocks.map (blockRecord cfg)).length = blocks.length := by
  refine ⟨?_, by simp⟩
  cases blocks with
  | nil => rfl
  | cons b bs =>
    have hrun1 : runLines cfg 1 (linesOfBlocks (b :: bs)) initState =
        .ok ⟨(b :: bs).map (blockRecord cfg), [], false⟩ := by
      have hx := runBlocks cfg (b :: bs) h 1 [] Nat.one_ne_zero
      simpa using hx
    have hb := h b (List.mem_cons_self b bs)
    obtain ⟨hsHit, _⟩ := isStartLine_elim hb.1
    have hstrip := stripBom_of_patternHit hsHit
    have hform : linesOfBlocks (b :: bs) =
        b.startLine :: ((b.body ++ [b.endLine]) ++ linesOfBlocks bs) := rfl
    rw [hform] at hrun1
    have h0 := runLines_zero_of_one cfg hstrip hrun1
    unfold parselines
    rw [hform, h0]

/-! ## Scalar and list field policies -/

lemma addTag_scalar {cfg : RisConfig} {t : List Char} {name : String}
    (hm : lookupKey cfg.mapping t = some name)
    (hl : cfg.listTags.contains t = false)
    (hd : delimGet cfg t = none) (l : List Char) (data : Record) :
    addTag cfg t l data = .ok (addSingleTag cfg name (risContent l) data) := by
  unfold addTag
  rw [hm]
  dsimp only
  rw [hd]
  dsimp only
  simp only [hl, Bool.false_eq_true, if_false]

lemma addTag_list {cfg : RisConfig} {t : List Char} {name : String}
    (hm : lookupKey cfg.mapping t = some name)
    (hl : cfg.listTags.contains t = true)
    (hd : delimGet cfg t = none) (l : List Char) (data : Record) :
    addTag cfg t l data = addListTag name (risContent l) data := by
  unfold addTag
  rw [hm]
  dsimp only
  rw [hd]
  dsimp only
  simp only [hl, if_true]

lemma addSingleTag_absent {cfg : RisConfig} {name : String} {value : String}
    {data : Record} (ha : recHasKey data name = false) :
    addSingleTag cfg name value data = data ++ [(name, .str value)] := by
  simp [addSingleTag, recSetdefault, ha]

lemma addSingleTag_present {cfg : RisConfig} {name : String} {value : String}
    {data : Record} (ha : recHasKey data name = true) :
    addSingleTag cfg name value data = data := by
  unfold addSingleTag
  split
  · simp [recSetdefault, ha]
  · rfl

/-- C3: a scalar (non-list) field is first-wins regardless of
`enforce_list_tags` (any `cfg`): adding the same scalar tag twice to a
record that lacks the field keeps the first line's content and silently
ignores the second. -/
theorem claim3_scalar_first_wins (cfg : RisConfig) (t : List Char)
    (name : String) (l1 l2 : List Char) (data : Record)
    (hm : lookupKey cfg.mapping t = some name)
    (hl : cfg.listTags.contains t = false)
    (hd : delimGet cfg t = none)
    (ha : recHasKey data name = false) :
    Except.bind (addTag cfg t l1 data) (addTag cfg t l2) =
      .ok (data ++ [(name, Value.str (risContent l1))]) := by
  rw [addTag_scalar hm hl hd l1 data, addSingleTag_absent ha]
  dsimp only [Except.bind]
  rw [addTag_scalar hm hl hd l2 _,
    addSingleTag_present (recHasKey_append_self data name _)]

/-- C6: a list field accumulates: adding the same list tag twice to a
record that lacks the field yields the two contents as an ordered
sequence, in encounter order. -/
theorem claim6_list_accumulates (cfg : RisConfig) (t : List Char)
    (name : String) (l1 l2 : List Char) (data : Record)
    (hm : lookupKey cfg.mapping t = some name)
    (hl : cfg.listTags.contains t = true)
    (hd : delimGet cfg t = none)
    (ha : recGet data name = none) :
    Except.bind (addTag cfg t l1 data) (addTag cfg t l2) =
      .ok (data ++ [(name, Value.list [risContent l1, risContent l2])]) := by
  have h1 : addTag cfg t l1 data =
      .ok (data ++ [(name, Value.list [risContent l1])]) := by
    rw [addTag_list hm hl hd]
    unfold addListTag
    rw [ha]
    dsimp only
    rw [recSet_absent _ ha]
  rw [h1]
  dsimp only [Except.bind]
  rw [addTag_list hm hl hd]
  unfold addListTag
  rw [recGet_append_self _ ha]
  dsimp only
  have hf : valueFalsy (Value.list [risContent l1]) = false := rfl
  simp only [hf, Bool.false_eq_true, if_false]
  rw [recSet_append_update _ _ ha]
  rfl

/-! ## Error behaviour -/

/-- C4: a START_TAG line reached while a record is already open makes
`parse` fail with `ParserError`, carrying the 0-based index of the
offending line and the raw line text. -/
theorem claim4_double_start (cfg : RisConfig) (pre : List (List Char))
    (l : List Char) (post : List (List Char)) (st : PState)
    (hpre : runLines cfg 0 pre initState = .ok st)
    (hin : st.inref = true) (hl : isStartLine l = true) :
    parselines cfg (pre ++ l :: post) =
      .error (.parserError pre.length l) := by
  obtain ⟨hhit, hTag⟩ := isStartLine_elim hl
  have hsc : stepCore cfg l st = .error (.missingEnd l) :=
    stepCore_start_open cfg hhit hTag hin
  have hne : pre ≠ [] := by
    rintro rfl
    rw [runLines_nil, Except.ok.injEq] at hpre
    rw [← hpre] at hin
    exact absurd hin (by decide)
  have hlen : pre.length ≠ 0 := fun h0 => hne (List.length_eq_zero.mp h0)
  unfold parselines
  rw [runLines_append, hpre]
  dsimp only
  rw [runLines_cons_of_stepCore_err hsc (Or.inl (by omega))]
  dsimp only [liftFault]
  rw [Nat.zero_add]

/-- C7 (amended): when a field-add is attempted for a tag — the start tag
of a record being opened, or a mapped tag outside the start/end cases —
and the tag is in the tag mapping with a non-null delimiter entry, the
parse aborts at once with the bare unimplemented-feature exception, which
is a different fault kind from `ParserError`. -/
theorem claim7_delimiter_fault (cfg : RisConfig) (pre : List (List Char))
    (l : List Char) (post : List (List Char)) (st : PState) (dstr : String)
    (hpre : runLines cfg 0 pre initState = .ok st)
    (hhit : patternHit l = true)
    (hnER : l.take 2 ≠ END_TAG)
    (hstart : l.take 2 = START_TAG → st.inref = false)
    (hmap : (lookupKey cfg.mapping (l.take 2)).isSome = true)
    (hdel : delimGet cfg (l.take 2) = some dstr) :
    parselines cfg (pre ++ l :: post) = .error .exn ∧
    (∀ (i : Nat) (m : List Char),
      (ParseErr.exn : ParseErr) ≠ .parserError i m) := by
  refine ⟨?_, fun i m hh => ParseErr.noConfusion hh⟩
  obtain ⟨name, hname⟩ := Option.isSome_iff_exists.mp hmap
  have haddE : addTag cfg (l.take 2) l st.data = .error .exn := by
    unfold addTag
    rw [hname]
    dsimp only
    rw [hdel]
  have hsc : stepCore cfg l st = .error .exn := by
    by_cases hTY : l.take 2 = START_TAG
    · rw [stepCore_start cfg hhit hTY (hstart hTY), ← hTY, haddE]
    · rw [stepCore_other cfg hhit hTY hnER, hname]
      dsimp only
      rw [haddE]
  unfold parselines
  rw [runLines_append, hpre]
  dsimp only
  rw [runLines_cons_of_stepCore_err hsc
    (Or.inr (stripBom_of_patternHit hhit))]
  rfl

lemma exceptToOption_match_content (x : Except ParseErr PState) :
    exceptToOption
      (match x with
        | .error e => (.error e : Except ParseErr (List Record))
        | .ok st => .ok st.content) =
      (exceptToOption x).map PState.content := by
  cases x <;> rfl

/-- C2 (amended): an END_TAG line that is not the first input line,
reached while no record is open AND the working accumulator is empty,
never raises and never alters the output: the parse result (up to the
raised exception's line index) is the same as for the input with that
line removed. -/
theorem claim2_end_noop (cfg : RisConfig) (pre post : List (List Char))
    (e : List Char) (st : PState)
    (hpre : runLines cfg 0 pre initState = .ok st)
    (hin : st.inref = false) (hdata : st.data = [])
    (hend : isEndLine e = true) (hne : pre ≠ []) :
    exceptToOption (parselines cfg (pre ++ e :: post)) =
      exceptToOption (parselines cfg (pre ++ post)) := by
  obtain ⟨hhit, hTag⟩ := isEndLine_elim hend
  have hsc : stepCore cfg e st = .ok st := by
    rw [stepCore_end cfg hhit hTag, hdata]
    rfl
  have hlen : pre.length ≠ 0 := fun h0 => hne (List.length_eq_zero.mp h0)
  unfold parselines
  rw [runLines_append cfg pre (e :: post), runLines_append cfg pre post, hpre]
  dsimp only
  rw [runLines_cons_of_stepCore_ok hsc (Or.inl (by omega))]
  rw [exceptToOption_match_content, exceptToOption_match_content]
  rw [runLines_toOption_shift cfg post (i := 0 + pre.length + 1)
    (j := 0 + pre.length) (by omega) (by omega) st]

/-! ## State across calls, and fields added outside a record -/

lemma runLinesSt_nil (cfg : RisConfig) (i : Nat) (st : PState) :
    runLinesSt cfg i [] st = (st, none) := rfl

lemma runLinesSt_cons (cfg : RisConfig) (i : Nat) (l : List Char)
    (ls : List (List Char)) (st : PState) :
    runLinesSt cfg i (l :: ls) st =
      match parseStep cfg i l st with
      | .error e => (st, some e)
      | .ok st1 => runLinesSt cfg (i + 1) ls st1 := rfl

lemma runLinesSt_agree (cfg : RisConfig) (ls : List (List Char)) :
    ∀ (i : Nat) (st : PState),
      (match (runLinesSt cfg i ls st).2 with
        | some e => (.error e : Except ParseErr (List Record))
        | none => .ok (runLinesSt cfg i ls st).1.content) =
      (match runLines cfg i ls st with
        | .error e => .error e
        | .ok st1 => .ok st1.content) := by
  induction ls with
  | nil => intro i st; rfl
  | cons l t ih =>
    intro i st
    rw [runLinesSt_cons, runLines_cons]
    cases h : parseStep cfg i l st with
    | error e => rfl
    | ok st1 =>
      dsimp only
      exact ih (i + 1) st1

/-- C9: the parse state is not persisted across calls: a `parselines` call
on an instance whose `self.inref` attribute holds any leftover value `b`
(however an earlier call ended) returns exactly what a fresh parse of the
same lines under the same configuration returns. -/
theorem claim9_no_state_leak (cfg : RisConfig) (b : Bool)
    (lines : List (List Char)) :
    (parseCall cfg b lines).1 = parselines cfg lines ∧
    parseCall cfg b lines = parseCall cfg false lines := by
  constructor
  · unfold parseCall parselines
    dsimp only
    rw [← runLinesSt_agree cfg lines 0 initState]
    cases hx : (runLinesSt cfg 0 lines initState).2 <;> rfl
  · rfl

/-! ## Concrete configurations for witnesses and counterexamples -/

/-- A configuration mapping only the start tag `TY`. -/
def cfgTY : RisConfig :=
  ⟨[(['T', 'Y'], "type_of_reference")], [], [], true⟩

/-- A configuration mapping the list tag `AU`. -/
def cfgAU : RisConfig :=
  ⟨[(['A', 'U'], "authors")], [['A', 'U']], [], true⟩

/-- A configuration with a scalar tag `T1` and `enforce_list_tags = False`. -/
def cfgT1 : RisConfig :=
  ⟨[(['T', '1'], "primary_title")], [], [], false⟩

/-- The round-trip configuration of the specification's scenario. -/
def cfgW : RisConfig :=
  ⟨[(['T', 'Y'], "type_of_reference"), (['A', 'U'], "authors"),
    (['P', 'Y'], "year")], [['A', 'U']], [], true⟩

/-- A configuration with a non-null delimiter entry for the mapped tag
`AU`. -/
def cfgDel : RisConfig :=
  ⟨[(['A', 'U'], "authors")], [['A', 'U']], [(['A', 'U'], some ";")], true⟩

/-- A configuration whose delimiter mapping has a non-null entry for the
tag `XX`, which is absent from the tag mapping. -/
def cfgXX : RisConfig :=
  ⟨[(['T', 'Y'], "type_of_reference")], [], [(['X', 'X'], some ",")], true⟩

/-- C10: a tag-bearing line whose tag is neither START_TAG nor END_TAG but
is in the tag mapping adds its field even while no record is open
(`inref = false`); consequently mapped tag lines followed by a bare
END_TAG line with no preceding START_TAG emit a record with those
fields. -/
theorem claim10_add_outside_record :
    (∀ (cfg : RisConfig) (l : List Char) (st : PState) (d : Record),
      st.inref = false → patternHit l = true →
      l.take 2 ≠ START_TAG → l.take 2 ≠ END_TAG →
      addTag cfg (l.take 2) l st.data = .ok d →
      stepCore cfg l st = .ok ⟨st.content, d, false⟩) ∧
    parselines cfgAU ["AU  - Doe John".data, "ER  - ".data] =
      .ok [[("authors", Value.list ["Doe John"])]] := by
  constructor
  · intro cfg l st d hin hhit h1 h2 hadd
    have hlk : (lookupKey cfg.mapping (l.take 2)).isSome = true := by
      cases hx : lookupKey cfg.mapping (l.take 2) with
      | none =>
        unfold addTag at hadd
        rw [hx] at hadd
        exact absurd hadd (by simp)
      | some _ => rfl
    obtain ⟨name, hname⟩ := Option.isSome_iff_exists.mp hlk
    rw [stepCore_other cfg hhit h1 h2, hname]
    dsimp only
    rw [hadd, hin]
  · decide

theorem claim10_witness :
    stepCore cfgAU ("AU  - X".data) initState =
      .ok ⟨[], [("authors", Value.list ["X"])], false⟩ :=
  claim10_add_outside_record.1 cfgAU ("AU  - X".data) initState
    [("authors", Value.list ["X"])] rfl (by decide) (by decide) (by decide)
    (by decide)

/-- C2 (counterexample): an END_TAG line reached while no record is open
(the flag is false) CAN alter the output: if mapped tag lines have already
filled the working accumulator, the END_TAG line emits them as a record,
so the output differs from the output for the input without that line. -/
theorem claim2_counterexample :
    runLines cfgAU 0 ["AU  - X".data] initState =
      .ok ⟨[], [("authors", Value.list ["X"])], false⟩ ∧
    parselines cfgAU ["AU  - X".data, "ER  - ".data] =
      .ok [[("authors", Value.list ["X"])]] ∧
    parselines cfgAU ["AU  - X".data] = .ok [] := by
  refine ⟨by decide, by decide, by decide⟩

theorem claim2_witness :
    exceptToOption (parselines cfgTY
      (["TY  - JOUR".data, "ER  - ".data] ++
        "ER  - ".data :: ["TY  - BOOK".data, "ER  - ".data])) =
    exceptToOption (parselines cfgTY
      (["TY  - JOUR".data, "ER  - ".data] ++
        ["TY  - BOOK".data, "ER  - ".data])) :=
  claim2_end_noop cfgTY ["TY  - JOUR".data, "ER  - ".data]
    ["TY  - BOOK".data, "ER  - ".data] ("ER  - ".data)
    ⟨[[("type_of_reference", Value.str "JOUR")]], [], false⟩
    (by decide) rfl rfl (by decide) (by decide)

theorem claim1_witness :
    parselines cfgW (linesOfBlocks
      [⟨"TY  - JOUR".data,
        ["AU  - Doe John".data, "AU  - Roe Jane".data, "PY  - 2020".data],
        "ER  - ".data⟩,
       ⟨"TY  - BOOK".data, [], "ER  - ".data⟩]) =
      .ok ([⟨"TY  - JOUR".data,
        ["AU  - Doe John".data, "AU  - Roe Jane".data, "PY  - 2020".data],
        "ER  - ".data⟩,
       ⟨"TY  - BOOK".data, [], "ER  - ".data⟩].map (blockRecord cfgW)) ∧
    ([⟨"TY  - JOUR".data,
        ["AU  - Doe John".data, "AU  - Roe Jane".data, "PY  - 2020".data],
        "ER  - ".data⟩,
       ⟨("TY  - BOOK".data : List Char), ([] : List (List Char)),
        ("ER  - ".data : List Char)⟩].map (blockRecord cfgW)) =
      [[("type_of_reference", Value.str "JOUR"),
        ("authors", Value.list ["Doe John", "Roe Jane"]),
        ("year", Value.str "2020")],
       [("type_of_reference", Value.str "BOOK")]] :=
  ⟨(claim1_wellformed_blocks cfgW _ (by decide)).1, by decide⟩

theorem claim3_witness :
    Except.bind (addTag cfgT1 ['T', '1'] "T1  - A".data [])
      (addTag cfgT1 ['T', '1'] "T1  - B".data) =
      .ok [("primary_title", Value.str "A")] :=
  claim3_scalar_first_wins cfgT1 ['T', '1'] "primary_title"
    ("T1  - A".data) ("T1  - B".data) [] rfl rfl rfl rfl

theorem claim4_witness :
    parselines cfgTY ["TY  - JOUR".data, "TY  - BOOK".data] =
      .error (.parserError 1 "TY  - BOOK".data) :=
  claim4_double_start cfgTY ["TY  - JOUR".data] ("TY  - BOOK".data) []
    ⟨[], [("type_of_reference", Value.str "JOUR")], true⟩
    (by decide) rfl (by decide)

theorem claim6_witness :
    Except.bind (addTag cfgAU ['A', 'U'] "AU  - X".data [])
      (addTag cfgAU ['A', 'U'] "AU  - Y".data) =
      .ok [("authors", Value.list ["X", "Y"])] :=
  claim6_list_accumulates cfgAU ['A', 'U'] "authors"
    ("AU  - X".data) ("AU  - Y".data) [] rfl rfl rfl rfl

theorem claim7_witness :
    parselines cfgDel ["AU  - x".data] = .error ParseErr.exn :=
  (claim7_delimiter_fault cfgDel [] ("AU  - x".data) [] initState ";"
    rfl (by decide) (by decide) (fun _ => rfl) rfl rfl).1

/-- C7 (counterexample to the claim as stated): a tag can be "encountered"
(a tag-bearing line with that tag is processed) while the delimiter
mapping holds a non-null entry for it, and yet the parse succeeds: if the
tag is absent from the tag mapping, the line is silently dropped before
the delimiter check runs. -/
theorem claim7_counterexample :
    patternHit "XX  - a".data = true ∧
    delimGet cfgXX ['X', 'X'] = some "," ∧
    parselines cfgXX ["XX  - a".data] = .ok [] := by
  refine ⟨by decide, by decide, by decide⟩

/-- C5: the first-line `lstrip` does not remove a byte-order mark.  Its
argument (the two characters U+EFEF and lowercase f) leaves a leading
U+FEFF in place, so a BOM-prefixed START_TAG line fails the tag pattern
and the whole record is lost, where the specification expects the BOM to
be stripped and the record parsed. -/
theorem claim5_bom_not_stripped :
    stripBom ('\uFEFF' :: "TY  - JOUR".data) =
      '\uFEFF' :: "TY  - JOUR".data ∧
    parselines cfgTY
      [('\uFEFF' :: "TY  - JOUR".data), "ER  - ".data] = .ok [] ∧
    parselines cfgTY ["TY  - JOUR".data, "ER  - ".data] =
      .ok [[("type_of_reference", Value.str "JOUR")]] := by
  refine ⟨by decide, by decide, by decide⟩

/-- The record of the specification's renderer scenario. -/
def recC8 : Record :=
  [("authors", Value.list ["Doe John"]), ("year", Value.str "2020"),
   ("primary_title", Value.str "T"), ("journal_name", Value.str "J"),
   ("doi", Value.str "D")]

/-- C8 (counterexample): on `authors = ["Doe John"]` the renderer splits
on spaces and reverses the parts, so it prints `"John, D."`, not the
`"Doe, J."` the claim expects. -/
theorem claim8_counterexample :
    cite [recC8] true = some "John, D. (2020). T. J. D\n" ∧
    some "John, D. (2020). T. J. D\n" ≠
      some "Doe, J. (2020). T. J. D\n" := by
  refine ⟨by decide, by decide⟩

/-- C8 (amended): on the scenario record the renderer produces the line
`"John, D. (2020). T. J. D"` (space-separated name parts reversed, the
then-second part initialed), with a trailing newline character exactly
when the newline option is requested. -/
theorem claim8_render :
    cite [recC8] true = some "John, D. (2020). T. J. D\n" ∧
    cite [recC8] false = some "John, D. (2020). T. J. D" := by
  refine ⟨by decide, by decide⟩

end Ris
